import Mathlib

/-!
Verification of the last-quote endpoint module (`src/data/v2/last_quote.rs`).

The module decodes the response of the `/v2/stocks/quotes/latest` endpoint
into `Quote` values, builds the request query string, and routes responses
by HTTP status code.  We shallowly embed the data model and the decoding
pipeline.  JSON text parsing (performed by the external `serde_json` crate)
is embedded as an executable parser producing exact decimal rationals, per
the specification's decimal-codec requirement.  Timestamps are embedded as
nanoseconds since the Unix epoch, obtained by an RFC 3339 parser modelling
`chrono`'s deserializer.
-/

namespace Apca

/-- JSON values.  Numbers carry an exact rational, modelling the
specification's requirement that prices are decoded through a decimal type
that preserves the exact base-10 representation. -/
inductive Json where
  | null : Json
  | bool (b : Bool) : Json
  | num (q : ℚ) : Json
  | str (s : String) : Json
  | arr (elems : List Json) : Json
  | obj (fields : List (String × Json)) : Json

/-- Is `c` an ASCII decimal digit? -/
def isDigitChar (c : Char) : Bool :=
  48 ≤ c.toNat && c.toNat ≤ 57

/-- Split off the longest leading run of ASCII digits. -/
def takeDigits : List Char → List Char × List Char
  | [] => ([], [])
  | c :: cs =>
    if isDigitChar c then
      let (ds, rest) := takeDigits cs
      (c :: ds, rest)
    else
      ([], c :: cs)

/-- Numeric value of a digit string (most significant digit first). -/
def digitsToNat (ds : List Char) : Nat :=
  ds.foldl (fun acc c => acc * 10 + (c.toNat - 48)) 0

/-- Skip JSON whitespace (space, tab, line feed, carriage return). -/
def skipWs : List Char → List Char
  | [] => []
  | c :: cs =>
    if c = ' ' || c = '\t' || c = '\n' || c = '\r' then skipWs cs
    else c :: cs

/-- Value of an ASCII hex digit. -/
def hexVal (c : Char) : Option Nat :=
  if 48 ≤ c.toNat && c.toNat ≤ 57 then some (c.toNat - 48)
  else if 65 ≤ c.toNat && c.toNat ≤ 70 then some (c.toNat - 55)
  else if 97 ≤ c.toNat && c.toNat ≤ 102 then some (c.toNat - 87)
  else none

/-- Parse the remainder of a JSON string literal (the opening quote has
been consumed), accumulating characters in reverse. -/
def parseStringRest : List Char → List Char → Option (String × List Char)
  | [], _ => none
  | '"' :: rest, acc => some (String.mk acc.reverse, rest)
  | '\\' :: esc, acc =>
    match esc, acc with
    | '"' :: rest, acc => parseStringRest rest ('"' :: acc)
    | '\\' :: rest, acc => parseStringRest rest ('\\' :: acc)
    | '/' :: rest, acc => parseStringRest rest ('/' :: acc)
    | 'n' :: rest, acc => parseStringRest rest ('\n' :: acc)
    | 't' :: rest, acc => parseStringRest rest ('\t' :: acc)
    | 'r' :: rest, acc => parseStringRest rest ('\r' :: acc)
    | 'b' :: rest, acc => parseStringRest rest (Char.ofNat 8 :: acc)
    | 'f' :: rest, acc => parseStringRest rest (Char.ofNat 12 :: acc)
    | 'u' :: a :: b :: c :: d :: rest, acc =>
      match hexVal a, hexVal b, hexVal c, hexVal d with
      | some va, some vb, some vc, some vd =>
        let v := ((va * 16 + vb) * 16 + vc) * 16 + vd
        if 0xD800 ≤ v ∧ v ≤ 0xDBFF then
          -- high surrogate: a low surrogate escape must follow
          match rest with
          | '\\' :: 'u' :: e :: f :: g :: h :: rest2 =>
            match hexVal e, hexVal f, hexVal g, hexVal h with
            | some ve, some vf, some vg, some vh =>
              let w := ((ve * 16 + vf) * 16 + vg) * 16 + vh
              if 0xDC00 ≤ w ∧ w ≤ 0xDFFF then
                let scalar := 0x10000 + (v - 0xD800) * 0x400 + (w - 0xDC00)
                parseStringRest rest2 (Char.ofNat scalar :: acc)
              else none
            | _, _, _, _ => none
          | _ => none
        else if 0xDC00 ≤ v ∧ v ≤ 0xDFFF then none
        else parseStringRest rest (Char.ofNat v :: acc)
      | _, _, _, _ => none
    | _, _ => none
  | c :: rest, acc =>
    if c.toNat < 32 then none else parseStringRest rest (c :: acc)

/-- Parse the optional fraction part of a JSON number: either no leading
dot, or a dot followed by at least one digit. -/
def parseFracPart (cs : List Char) : Option (List Char × List Char) :=
  match cs with
  | '.' :: rest =>
    match takeDigits rest with
    | ([], _) => none
    | (ds, rest2) => some (ds, rest2)
  | _ => some ([], cs)

/-- Parse the optional exponent part of a JSON number. -/
def parseExpPart (cs : List Char) : Option (Int × List Char) :=
  match cs with
  | 'e' :: rest | 'E' :: rest =>
    let (sgn, rest1) : Bool × List Char :=
      match rest with
      | '+' :: r => (false, r)
      | '-' :: r => (true, r)
      | r => (false, r)
    match takeDigits rest1 with
    | ([], _) => none
    | (ds, rest2) =>
      let e : Int := digitsToNat ds
      some (if sgn then -e else e, rest2)
  | _ => some (0, cs)

/-- Exact rational value of a decimal number given as integer digits,
fraction digits and decimal exponent, with sign: the reduced form of
`mantissa * 10 ^ exp`. -/
def decimalToRat (neg : Bool) (intDs fracDs : List Char) (e : Int) : ℚ :=
  let mantissa : Int := digitsToNat (intDs ++ fracDs)
  let mantissa := if neg then -mantissa else mantissa
  let exp : Int := e - fracDs.length
  if 0 ≤ exp then mkRat (mantissa * ((10 ^ exp.toNat : Nat) : Int)) 1
  else mkRat mantissa (10 ^ (-exp).toNat)

/-- Parse a JSON number (grammar of RFC 8259: optional minus, integer part
without leading zeros, optional fraction, optional exponent). -/
def parseNumber (cs : List Char) : Option (ℚ × List Char) :=
  let (neg, cs1) : Bool × List Char :=
    match cs with
    | '-' :: rest => (true, rest)
    | _ => (false, cs)
  match takeDigits cs1 with
  | ([], _) => none
  | (ds, cs2) =>
    if ds.length > 1 && ds.headD '0' = '0' then none
    else
      match parseFracPart cs2 with
      | none => none
      | some (fds, cs3) =>
        match parseExpPart cs3 with
        | none => none
        | some (e, cs4) => some (decimalToRat neg ds fds e, cs4)

/-- The opening-brace character, written by code point to keep it out of
string and character literals. -/
def lbrace : Char := Char.ofNat 123

/-- The closing-brace character. -/
def rbrace : Char := Char.ofNat 125

mutual

/-- Parse one JSON value.  `fuel` bounds the recursion depth; callers pass
the input length, which suffices because every nested value consumes at
least one character. -/
def parseValue : Nat → List Char → Option (Json × List Char)
  | 0, _ => none
  | _ + 1, 'n' :: 'u' :: 'l' :: 'l' :: rest => some (Json.null, rest)
  | _ + 1, 't' :: 'r' :: 'u' :: 'e' :: rest => some (Json.bool true, rest)
  | _ + 1, 'f' :: 'a' :: 'l' :: 's' :: 'e' :: rest => some (Json.bool false, rest)
  | _ + 1, '"' :: rest =>
    match parseStringRest rest [] with
    | some (s, rest2) => some (Json.str s, rest2)
    | none => none
  | fuel + 1, '[' :: rest =>
    match skipWs rest with
    | ']' :: rest2 => some (Json.arr [], rest2)
    | rest2 => parseElems fuel rest2 []
  | fuel + 1, c :: rest =>
    if c = lbrace then
      match skipWs rest with
      | c2 :: rest2 =>
        if c2 = rbrace then some (Json.obj [], rest2)
        else parseMembers fuel (c2 :: rest2) []
      | [] => none
    else parseNumber (c :: rest) |>.map (fun p => (Json.num p.1, p.2))
  | _ + 1, [] => none
termination_by structural fuel => fuel

/-- Parse the elements of a non-empty JSON array, accumulating parsed
elements. -/
def parseElems : Nat → List Char → List Json → Option (Json × List Char)
  | 0, _, _ => none
  | fuel + 1, cs, acc =>
    match parseValue fuel (skipWs cs) with
    | none => none
    | some (j, rest) =>
      match skipWs rest with
      | ',' :: rest2 => parseElems fuel rest2 (acc ++ [j])
      | ']' :: rest2 => some (Json.arr (acc ++ [j]), rest2)
      | _ => none
termination_by structural fuel => fuel

/-- Parse the members of a non-empty JSON object, accumulating parsed
key/value pairs. -/
def parseMembers : Nat → List Char → List (String × Json) → Option (Json × List Char)
  | 0, _, _ => none
  | fuel + 1, cs, acc =>
    match skipWs cs with
    | '"' :: rest =>
      match parseStringRest rest [] with
      | none => none
      | some (k, rest1) =>
        match skipWs rest1 with
        | ':' :: rest2 =>
          match parseValue fuel (skipWs rest2) with
          | none => none
          | some (v, rest3) =>
            match skipWs rest3 with
            | ',' :: rest4 => parseMembers fuel rest4 (acc ++ [(k, v)])
            | c :: rest4 =>
              if c = rbrace then some (Json.obj (acc ++ [(k, v)]), rest4)
              else none
            | [] => none
        | _ => none
    | _ => none
termination_by structural fuel => fuel

end

/-- Parse a complete JSON document: one value, possibly surrounded by
whitespace, consuming the whole input (as `serde_json::from_slice` does). -/
def parseJson (s : String) : Option Json :=
  match parseValue (s.data.length + 1) (skipWs s.data) with
  | some (j, rest) => if skipWs rest = [] then some j else none
  | none => none

/-! ### RFC 3339 timestamps

`chrono::DateTime<Utc>` deserializes from an RFC 3339 string.  We embed a
timestamp as its number of nanoseconds since the Unix epoch. -/

/-- Is `y` a leap year (proleptic Gregorian calendar)? -/
def isLeapYear (y : Nat) : Bool :=
  y % 4 = 0 && (y % 100 ≠ 0 || y % 400 = 0)

/-- Number of days in month `m` of year `y`. -/
def daysInMonth (y m : Nat) : Nat :=
  if m = 2 then (if isLeapYear y then 29 else 28)
  else if m = 4 || m = 6 || m = 9 || m = 11 then 30
  else 31

/-- Days from 1970-01-01 to the civil date `y-m-d` (Howard Hinnant's
`days_from_civil` algorithm). -/
def daysFromCivil (y m d : Int) : Int :=
  let y := if m ≤ 2 then y - 1 else y
  let era := (if 0 ≤ y then y else y - 399) / 400
  let yoe := y - era * 400
  let doy := (153 * (if 2 < m then m - 3 else m + 9) + 2) / 5 + d - 1
  let doe := yoe * 365 + yoe / 4 - yoe / 100 + doy
  era * 146097 + doe - 719468

/-- Exactly two ASCII digits as a number. -/
def twoDigits (a b : Char) : Option Nat :=
  if isDigitChar a && isDigitChar b then some (digitsToNat [a, b]) else none

/-- Parse the trailing UTC-offset of an RFC 3339 timestamp, returning the
offset in seconds.  The offset must end the input. -/
def parseOffset (cs : List Char) : Option Int :=
  match cs with
  | ['Z'] => some 0
  | ['z'] => some 0
  | [sgn, h1, h2, ':', m1, m2] =>
    if sgn = '+' || sgn = '-' then
      match twoDigits h1 h2, twoDigits m1 m2 with
      | some hh, some mm =>
        if hh < 24 && mm < 60 then
          let secs : Int := hh * 3600 + mm * 60
          some (if sgn = '-' then -secs else secs)
        else none
      | _, _ => none
    else none
  | _ => none

/-- Nanoseconds from a fractional-second digit string: the first nine
digits, right-padded with zeros (further digits only add precision the
representation cannot hold and are dropped). -/
def fracToNanos (ds : List Char) : Nat :=
  digitsToNat (ds.take 9) * 10 ^ (9 - min ds.length 9)

/-- Parse an RFC 3339 timestamp (`YYYY-MM-DDTHH:MM:SS[.frac](Z|±HH:MM)`,
`T`/`Z` case-insensitive) into nanoseconds since the Unix epoch,
modelling `chrono`'s `DateTime<Utc>` deserializer. -/
def parseRFC3339 (s : String) : Option Int :=
  match s.data with
  | y1 :: y2 :: y3 :: y4 :: '-' :: m1 :: m2 :: '-' :: d1 :: d2 :: tc ::
      h1 :: h2 :: ':' :: n1 :: n2 :: ':' :: s1 :: s2 :: rest =>
    if (isDigitChar y1 && isDigitChar y2 && isDigitChar y3 && isDigitChar y4)
        && (tc = 'T' || tc = 't') then
      match twoDigits m1 m2, twoDigits d1 d2, twoDigits h1 h2,
          twoDigits n1 n2, twoDigits s1 s2 with
      | some mo, some da, some hh, some mi, some se =>
        let yr := digitsToNat [y1, y2, y3, y4]
        if 1 ≤ mo && mo ≤ 12 && 1 ≤ da && da ≤ daysInMonth yr mo
            && hh < 24 && mi < 60 && se < 60 then
          let (fracDs, rest1) : List Char × List Char :=
            match rest with
            | '.' :: rest0 =>
              match takeDigits rest0 with
              | ([], _) => ([], rest)  -- bare dot: the offset parse below fails
              | (ds, r) => (ds, r)
            | _ => ([], rest)
          match parseOffset rest1 with
          | some off =>
            let days := daysFromCivil yr mo da
            let secs : Int := days * 86400 + hh * 3600 + mi * 60 + se - off
            some (secs * 1000000000 + fracToNanos fracDs)
          | none => none
        else none
      | _, _, _, _, _ => none
    else none
  | _ => none

/-! ### Data model (`last_quote.rs`) -/

/-- `QuoteDataPoint`: fields for individual data points in the response
JSON (`t`, `ap`, `as`, `bp`, `bs`).  Timestamps are nanoseconds since the
epoch, prices are exact rationals, sizes are `u64` values. -/
structure QuoteDataPoint where
  t : Int
  ap : ℚ
  as : Nat
  bp : ℚ
  bs : Nat
deriving DecidableEq

/-- A quote as returned by the `/v2/stocks/quotes/latest` endpoint. -/
structure Quote where
  time : Int
  ask_price : ℚ
  ask_size : Nat
  bid_price : ℚ
  bid_size : Nat
  symbol : String
deriving DecidableEq

/-- `Quote::from`: build a `Quote` from a symbol and a data point (the
source names this function `from`, a Lean keyword). -/
def Quote.fromPoint (symbol : String) (point : QuoteDataPoint) : Quote :=
  { time := point.t
    ask_price := point.ap
    ask_size := point.as
    bid_price := point.bp
    bid_size := point.bs
    symbol := symbol }

/-- First value bound to key `k` in a JSON object's field list (serde's
field lookup). -/
def lookupField (fields : List (String × Json)) (k : String) : Option Json :=
  match fields with
  | [] => none
  | kv :: rest => if kv.1 = k then some kv.2 else lookupField rest k

/-- Decode a JSON value as a `u64` (a number that is a non-negative
integer below `2^64`). -/
def asU64 (j : Json) : Option Nat :=
  match j with
  | Json.num q =>
    if q.den = 1 ∧ 0 ≤ q.num ∧ q.num < 2 ^ 64 then some q.num.toNat else none
  | _ => none

/-- Decode a JSON value as a price (`num_decimal::Num`), per the
specification's decimal codec: the exact rational of the JSON number. -/
def asPrice (j : Json) : Option ℚ :=
  match j with
  | Json.num q => some q
  | _ => none

/-- Decode a JSON value as a `chrono::DateTime<Utc>`: an RFC 3339
string. -/
def asDateTime (j : Json) : Option Int :=
  match j with
  | Json.str s => parseRFC3339 s
  | _ => none

/-- Derived deserializer of `QuoteDataPoint`: requires the five expected
fields and ignores any other field (the struct does not deny unknown
fields). -/
def QuoteDataPoint.deserialize (j : Json) : Option QuoteDataPoint :=
  match j with
  | Json.obj fields => do
    let t ← lookupField fields "t" >>= asDateTime
    let ap ← lookupField fields "ap" >>= asPrice
    let as ← lookupField fields "as" >>= asU64
    let bp ← lookupField fields "bp" >>= asPrice
    let bs ← lookupField fields "bs" >>= asU64
    some ⟨t, ap, as, bp, bs⟩
  | _ => none

/-- Insert into a string-keyed map represented as an association list:
any existing binding of the key is replaced (`HashMap::insert`). -/
def mapInsert (m : List (String × QuoteDataPoint)) (k : String)
    (v : QuoteDataPoint) : List (String × QuoteDataPoint) :=
  m.filter (fun p => !(p.1 == k)) ++ [(k, v)]

/-- Build the `HashMap` from the decoded key/value pairs, in entry order,
later bindings replacing earlier ones.  (The real `HashMap` iterates in an
unspecified order; this model fixes one concrete order, and every claim
about the decoded output is stated order-insensitively.) -/
def hashMapOfList (l : List (String × QuoteDataPoint)) :
    List (String × QuoteDataPoint) :=
  l.foldl (fun m kv => mapInsert m kv.1 kv.2) []

/-- Decode every value of the `quotes` object as a `QuoteDataPoint`,
keeping the keys; fails if any single record fails. -/
def decodePoints : List (String × Json) → Option (List (String × QuoteDataPoint))
  | [] => some []
  | (k, v) :: rest =>
    match QuoteDataPoint.deserialize v, decodePoints rest with
    | some p, some ps => some ((k, p) :: ps)
    | _, _ => none

/-- `LastQuoteResponse`: the representation of the JSON data in the
response, a map from symbol to data point. -/
structure LastQuoteResponse where
  quotes : List (String × QuoteDataPoint)

/-- Derived deserializer of `LastQuoteResponse`: an object with a
`quotes` field holding an object whose values are `QuoteDataPoint`s. -/
def LastQuoteResponse.deserialize (j : Json) : Option LastQuoteResponse :=
  match j with
  | Json.obj fields =>
    match lookupField fields "quotes" with
    | some (Json.obj kvs) => (decodePoints kvs).map (fun pts => ⟨hashMapOfList pts⟩)
    | _ => none
  | _ => none

/-- `Quote::parse`: decode the response body into a vector of quotes, one
per entry of the `quotes` map, the symbol taken from the map key. -/
def Quote.parse (body : String) : Except Unit (List Quote) :=
  match (parseJson body).bind LastQuoteResponse.deserialize with
  | some response =>
    Except.ok (response.quotes.map (fun kv => Quote.fromPoint kv.1 kv.2))
  | none => Except.error ()

/-! ### Request side -/

/-- Modelled from the spec: `Feed` (defined in `data/v2/mod.rs`, outside
the verified sources) is the enumerated data-source selector; it
serializes as one lowercase string value. -/
inductive Feed where
  | IEX : Feed
  | OTC : Feed
  | SIP : Feed
deriving DecidableEq

/-- Modelled from the spec: the wire string of a `Feed` value. -/
def Feed.wire : Feed → String
  | Feed.IEX => "iex"
  | Feed.OTC => "otc"
  | Feed.SIP => "sip"

/-- A GET request to be made to the `/v2/stocks/quotes/latest`
endpoint. -/
structure LastQuoteReq where
  symbols : String
  feed : Option Feed
deriving DecidableEq

/-- `Vec::join` on strings: concatenate, inserting the separator between
consecutive elements. -/
def joinComma : List String → String
  | [] => ""
  | [s] => s
  | s :: s2 :: rest => s ++ "," ++ joinComma (s2 :: rest)

/-- `LastQuoteReq::new`: the comma-join of the given symbols, no feed. -/
def LastQuoteReq.new (symbols : List String) : LastQuoteReq :=
  { symbols := joinComma symbols, feed := none }

/-- `LastQuoteReq::with_feed`: set the data feed to use. -/
def LastQuoteReq.with_feed (r : LastQuoteReq) (feed : Feed) : LastQuoteReq :=
  { r with feed := some feed }

/-- UTF-8 encoding of one character, as byte values. -/
def utf8Bytes (c : Char) : List Nat :=
  let n := c.toNat
  if n < 0x80 then [n]
  else if n < 0x800 then [0xC0 + n / 64, 0x80 + n % 64]
  else if n < 0x10000 then
    [0xE0 + n / 4096, 0x80 + n / 64 % 64, 0x80 + n % 64]
  else
    [0xF0 + n / 262144, 0x80 + n / 4096 % 64, 0x80 + n / 64 % 64, 0x80 + n % 64]

/-- Uppercase hex digit. -/
def hexDigit (n : Nat) : Char :=
  if n < 10 then Char.ofNat (48 + n) else Char.ofNat (55 + n)

/-- `application/x-www-form-urlencoded` encoding of one byte: ASCII
alphanumerics and `*-._` unchanged, space as `+`, anything else
percent-encoded. -/
def urlencodeByte (b : Nat) : String :=
  if (48 ≤ b ∧ b ≤ 57) ∨ (65 ≤ b ∧ b ≤ 90) ∨ (97 ≤ b ∧ b ≤ 122)
      ∨ b = 42 ∨ b = 45 ∨ b = 46 ∨ b = 95 then
    String.singleton (Char.ofNat b)
  else if b = 32 then "+"
  else String.mk ['%', hexDigit (b / 16), hexDigit (b % 16)]

/-- Form-urlencode a string value. -/
def urlencode (s : String) : String :=
  s.data.foldl (fun acc c => (utf8Bytes c).foldl (fun a b => a ++ urlencodeByte b) acc) ""

/-- Modelled from the spec: `serde_urlencoded::to_string` applied to a
`LastQuoteReq` — `key=value` pairs joined by `&`, fields in declaration
order (`symbols` before `feed`), an unset optional field omitted
entirely. -/
def to_query (input : LastQuoteReq) : Except Unit String :=
  Except.ok <|
    "symbols=" ++ urlencode input.symbols ++
      (match input.feed with
       | none => ""
       | some f => "&feed=" ++ urlencode f.wire)

/-! ### The `Get` endpoint

The `EndpointNoParse!` macro invocation instantiates the endpoint
contract: path and query construction, the status-code routing table
(200 → success decode, 422 → `InvalidInput`, anything else → a generic
unexpected-status error carrying status and body), and the error
decoder. -/

/-- Modelled from the spec: `ApiError`, the server's structured error
payload with message/code fields (its definition lives outside the
verified sources). -/
structure ApiError where
  code : Nat
  message : String
deriving DecidableEq

/-- Modelled from the spec: the derived deserializer of `ApiError`. -/
def ApiError.deserialize (j : Json) : Option ApiError :=
  match j with
  | Json.obj fields => do
    let code ← lookupField fields "code" >>= asU64
    let message ←
      match lookupField fields "message" with
      | some (Json.str s) => some s
      | _ => none
    some ⟨code, message⟩
  | _ => none

/-- The error type of the `Get` endpoint: one variant per registered
failure status, carrying the structured error or the raw body bytes. -/
inductive GetError where
  | invalidInput (err : Except String ApiError) : GetError

/-- The outcome of routing one HTTP response through the endpoint. -/
inductive GetResult where
  | success (output : List Quote) : GetResult
  | conversionErr : GetResult
  | endpointErr (err : GetError) : GetResult
  | unexpectedStatus (status : Nat) (body : String) : GetResult

namespace Get

/-- `path`: the fixed endpoint path. -/
def path (_input : LastQuoteReq) : String :=
  "/v2/stocks/quotes/latest"

/-- `query`: `Ok(Some(to_query(input)?))`. -/
def query (input : LastQuoteReq) : Except Unit (Option String) :=
  (to_query input).map some

/-- `parse`: decode a success body. -/
def parse (body : String) : Except Unit (List Quote) :=
  Quote.parse body

/-- `parse_err`: decode the body as a structured `ApiError`; on failure
return the raw body verbatim. -/
def parse_err (body : String) : Except String ApiError :=
  match (parseJson body).bind ApiError.deserialize with
  | some e => Except.ok e
  | none => Except.error body

/-- Modelled from the spec: the status-code routing of the endpoint
contract (the `EndpointNoParse!`/`Endpoint` machinery lives outside the
verified sources).  Status 200 runs the success decoder, status 422
produces the `InvalidInput` domain error via `parse_err`, and any other
status becomes a generic unexpected-status error carrying the status code
and the body verbatim. -/
def evaluate (status : Nat) (body : String) : GetResult :=
  if status = 200 then
    match parse body with
    | Except.ok output => GetResult.success output
    | Except.error _ => GetResult.conversionErr
  else if status = 422 then
    GetResult.endpointErr (GetError.invalidInput (parse_err body))
  else
    GetResult.unexpectedStatus status body

end Get

/-! ### Fixture data

The reference response from the endpoint documentation, as used by the
module's `parse_reference_quote` test. -/

/-- The documentation's reference response body: records for `TSLA`
(prices 1020/990) and `AAPL` (prices 170/168.03), each with extra wire
fields (`ax`, `bx`, `c`, `z`). -/
def fixtureBody : String :=
  "\x7b \"quotes\": \x7b \"TSLA\": \x7b \"t\": \"2022-04-12T17:26:45.009288296Z\", \"ax\": \"V\", \"ap\": 1020, \"as\": 3, \"bx\": \"V\", \"bp\": 990, \"bs\": 5, \"c\": [\"R\"], \"z\": \"C\" \x7d, \"AAPL\": \x7b \"t\": \"2022-04-12T17:26:44.962998616Z\", \"ax\": \"V\", \"ap\": 170, \"as\": 1, \"bx\": \"V\", \"bp\": 168.03, \"bs\": 1, \"c\": [\"R\"], \"z\": \"C\" \x7d \x7d \x7d"

/-- The quote the `TSLA` fixture record denotes.  The timestamp is
`2022-04-12T17:26:45.009288296Z` as nanoseconds since the epoch. -/
def tslaQuote : Quote :=
  { time := 1649784405009288296
    ask_price := 1020
    ask_size := 3
    bid_price := 990
    bid_size := 5
    symbol := "TSLA" }

/-- The quote the `AAPL` fixture record denotes.  The timestamp is
`2022-04-12T17:26:44.962998616Z` as nanoseconds since the epoch; the bid
price is the exact decimal 168.03. -/
def aaplQuote : Quote :=
  { time := 1649784404962998616
    ask_price := 170
    ask_size := 1
    bid_price := mkRat 16803 100
    bid_size := 1
    symbol := "AAPL" }

/-- The five field keys the `QuoteDataPoint` deserializer reads; every
other field of a raw record is unknown to it. -/
def knownKeys : List String :=
  ["t", "ap", "as", "bp", "bs"]

/-- The tail of a comma-join: a leading comma before every element. -/
def joinCommaTail : List String → String
  | [] => ""
  | s :: rest => "," ++ s ++ joinCommaTail rest

end Apca

namespace Apca

/-! ### Supporting lemmas -/

/-- `String.intercalate.go` appends the comma-prefixed tail of the
remaining elements to the accumulator. -/
theorem intercalate_go_eq (l : List String) (acc : String) :
    String.intercalate.go acc "," l = acc ++ joinCommaTail l := by
  induction l generalizing acc with
  | nil => simp [String.intercalate.go, joinCommaTail]
  | cons s rest ih =>
    simp only [String.intercalate.go, ih, joinCommaTail]
    simp [String.append_assoc]

/-- `joinComma` agrees with the library comma-join. -/
theorem joinComma_eq_intercalate (l : List String) :
    joinComma l = String.intercalate "," l := by
  match l with
  | [] => rfl
  | [s] =>
    show s = String.intercalate.go s "," []
    rw [intercalate_go_eq]
    simp [joinCommaTail]
  | s :: s2 :: rest =>
    show s ++ "," ++ joinComma (s2 :: rest) = String.intercalate.go s "," (s2 :: rest)
    rw [intercalate_go_eq, joinComma_eq_intercalate (s2 :: rest)]
    show s ++ "," ++ String.intercalate.go s2 "," rest = _
    rw [intercalate_go_eq]
    simp [joinCommaTail, String.append_assoc]

/-- Filtering a field list down to the known keys does not change the
lookup of a known key. -/
theorem lookupField_filter_known (fields : List (String × Json)) (k : String)
    (hk : knownKeys.contains k = true) :
    lookupField (fields.filter (fun kv => knownKeys.contains kv.1)) k =
      lookupField fields k := by
  induction fields with
  | nil => rfl
  | cons p rest ih =>
    simp only [List.filter_cons]
    by_cases hp : knownKeys.contains p.1 = true
    · rw [if_pos hp]
      show (if p.1 = k then some p.2 else _) = (if p.1 = k then some p.2 else _)
      by_cases he : p.1 = k
      · simp [he]
      · simp only [if_neg he]
        exact ih
    · rw [if_neg hp]
      have hne : ¬(p.1 = k) := fun he => hp (he ▸ hk)
      show _ = (if p.1 = k then some p.2 else lookupField rest k)
      rw [if_neg hne]
      exact ih

/-- `decodePoints` preserves the keys. -/
theorem decodePoints_keys (kvs : List (String × Json))
    (pts : List (String × QuoteDataPoint)) (h : decodePoints kvs = some pts) :
    pts.map Prod.fst = kvs.map Prod.fst := by
  induction kvs generalizing pts with
  | nil =>
    cases h
    rfl
  | cons kv rest ih =>
    rw [decodePoints] at h
    cases hd : QuoteDataPoint.deserialize kv.2 with
    | none => rw [hd] at h; exact absurd h (by simp)
    | some p =>
      cases hr : decodePoints rest with
      | none => rw [hd, hr] at h; exact absurd h (by simp)
      | some ps =>
        rw [hd, hr] at h
        cases h
        simpa using ih ps hr

/-- Folding `mapInsert` over pairs with pairwise-distinct keys appends
them to the accumulator unchanged. -/
theorem foldl_mapInsert_nodup (l acc : List (String × QuoteDataPoint))
    (h : ((acc ++ l).map Prod.fst).Nodup) :
    List.foldl (fun m kv => mapInsert m kv.1 kv.2) acc l = acc ++ l := by
  induction l generalizing acc with
  | nil => simp
  | cons kv rest ih =>
    rw [List.foldl_cons]
    have hnotin : ∀ p ∈ acc, ¬(p.1 = kv.1) := by
      intro p hp he
      have : kv.1 ∈ acc.map Prod.fst := he ▸ List.mem_map_of_mem Prod.fst hp
      have hd : ((acc.map Prod.fst) ++ (kv.1 :: rest.map Prod.fst)).Nodup := by
        simpa using h
      exact (List.disjoint_of_nodup_append hd) this (List.mem_cons_self _ _)
    have hins : mapInsert acc kv.1 kv.2 = acc ++ [kv] := by
      unfold mapInsert
      congr 1
      refine List.filter_eq_self.mpr (fun p hp => ?_)
      simpa using hnotin p hp
    rw [hins, ih (acc ++ [kv]) (by simpa using h)]
    simp

/-- On pairwise-distinct keys, the map built by repeated insertion holds
exactly the inserted pairs, in order. -/
theorem hashMapOfList_eq_self (l : List (String × QuoteDataPoint))
    (h : (l.map Prod.fst).Nodup) : hashMapOfList l = l := by
  have := foldl_mapInsert_nodup l [] (by simpa using h)
  simpa [hashMapOfList] using this

/-! ### Claims -/

set_option maxRecDepth 100000 in
/-- C1: decoding the fixture response body with `Quote::parse` succeeds
and yields exactly two quotes whose `symbol`, `ask_price`, `ask_size`,
`bid_price`, `bid_size` and `time` fields equal the source records
exactly; `AAPL`'s bid price is the exact rational 16803/100 and the
nanosecond-precision RFC 3339 timestamps are preserved. -/
theorem fixture_roundtrip_decoding :
    ∃ l, Quote.parse fixtureBody = Except.ok l ∧ l.length = 2 ∧
      tslaQuote ∈ l ∧ aaplQuote ∈ l ∧
      aaplQuote.bid_price = (16803 : ℚ) / 100 ∧
      parseRFC3339 "2022-04-12T17:26:45.009288296Z" = some tslaQuote.time ∧
      parseRFC3339 "2022-04-12T17:26:44.962998616Z" = some aaplQuote.time := by
  refine ⟨[tslaQuote, aaplQuote], ?_, ?_, ?_, ?_, ?_, ?_, ?_⟩
  · rfl
  · rfl
  · exact List.Mem.head _
  · exact List.Mem.tail _ (List.Mem.head _)
  · show mkRat 16803 100 = (16803 : ℚ) / 100
    rw [Rat.mkRat_eq_div]; norm_num
  · rfl
  · rfl

/-- C2: for every response body, a status of 422 is routed to the
`InvalidInput` domain error built from `parse_err`, and never to the
success path (nor to a success-decode conversion error). -/
theorem status_422_routes_invalid_input (body : String) :
    Get.evaluate 422 body
        = GetResult.endpointErr (GetError.invalidInput (Get.parse_err body)) ∧
    (∀ output, Get.evaluate 422 body ≠ GetResult.success output) ∧
    Get.evaluate 422 body ≠ GetResult.conversionErr := by
  refine ⟨rfl, ?_, ?_⟩
  · intro output h
    simp [Get.evaluate] at h
  · intro h
    simp [Get.evaluate] at h

/-- C2's witness at a concrete body. -/
theorem status_422_routes_invalid_input_witness :
    Get.evaluate 422 "not json"
      = GetResult.endpointErr (GetError.invalidInput (Except.error "not json")) :=
  (status_422_routes_invalid_input "not json").1

/-- C3: every response whose status is neither 200 nor 422 becomes the
generic unexpected-status error carrying exactly that status code and the
body verbatim. -/
theorem unknown_status_carries_body (status : Nat) (body : String)
    (h200 : status ≠ 200) (h422 : status ≠ 422) :
    Get.evaluate status body = GetResult.unexpectedStatus status body := by
  simp [Get.evaluate, h200, h422]

/-- C3's witness at status 500. -/
theorem unknown_status_carries_body_witness :
    Get.evaluate 500 "oops" = GetResult.unexpectedStatus 500 "oops" :=
  unknown_status_carries_body 500 "oops" (by decide) (by decide)

/-- C4: a body parsing to an object of the form `{"quotes": {...}}` whose
records all decode yields exactly one quote per key/value pair, in pair
order, each quote's symbol taken from the map key; in particular an empty
collection decodes to the empty sequence without error. -/
theorem one_quote_per_pair (body : String) (kvs : List (String × Json))
    (pts : List (String × QuoteDataPoint))
    (hp : parseJson body = some (Json.obj [("quotes", Json.obj kvs)]))
    (hd : decodePoints kvs = some pts)
    (hnd : (kvs.map Prod.fst).Nodup) :
    Quote.parse body = Except.ok (pts.map (fun kv => Quote.fromPoint kv.1 kv.2)) ∧
    (pts.map (fun kv => Quote.fromPoint kv.1 kv.2)).length = kvs.length ∧
    (pts.map (fun kv => Quote.fromPoint kv.1 kv.2)).map Quote.symbol
      = kvs.map Prod.fst := by
  have hkeys : pts.map Prod.fst = kvs.map Prod.fst := decodePoints_keys kvs pts hd
  have hmap : hashMapOfList pts = pts :=
    hashMapOfList_eq_self pts (hkeys ▸ hnd)
  have hdes : LastQuoteResponse.deserialize (Json.obj [("quotes", Json.obj kvs)])
      = (decodePoints kvs).map (fun l => LastQuoteResponse.mk (hashMapOfList l)) := rfl
  have hpipe : (parseJson body).bind LastQuoteResponse.deserialize
      = some (LastQuoteResponse.mk pts) := by
    rw [hp]
    show LastQuoteResponse.deserialize (Json.obj [("quotes", Json.obj kvs)])
      = some (LastQuoteResponse.mk pts)
    rw [hdes, hd]
    show some (LastQuoteResponse.mk (hashMapOfList pts))
      = some (LastQuoteResponse.mk pts)
    rw [hmap]
  refine ⟨?_, ?_, ?_⟩
  · unfold Quote.parse
    rw [hpipe]
  · simpa using congrArg List.length hkeys
  · rw [List.map_map, ← hkeys]
    rfl

/-- C4's witness: the empty quotes collection decodes to the empty
sequence. -/
theorem one_quote_per_pair_witness :
    Quote.parse "\x7b\"quotes\": \x7b\x7d\x7d" = Except.ok [] :=
  (one_quote_per_pair "\x7b\"quotes\": \x7b\x7d\x7d" [] [] rfl rfl (by simp)).1

/-- C5: a raw record decodes exactly as the same record with every field
outside the five expected ones removed — unknown fields neither make the
decode fail nor affect the decoded record or the quote built from it. -/
theorem unknown_fields_ignored (fields : List (String × Json)) :
    QuoteDataPoint.deserialize (Json.obj fields)
        = QuoteDataPoint.deserialize
            (Json.obj (fields.filter (fun kv => knownKeys.contains kv.1))) ∧
    ∀ symbol,
      (QuoteDataPoint.deserialize (Json.obj fields)).map (Quote.fromPoint symbol)
        = (QuoteDataPoint.deserialize
            (Json.obj (fields.filter (fun kv => knownKeys.contains kv.1)))).map
              (Quote.fromPoint symbol) := by
  have h : QuoteDataPoint.deserialize (Json.obj fields)
      = QuoteDataPoint.deserialize
          (Json.obj (fields.filter (fun kv => knownKeys.contains kv.1))) := by
    unfold QuoteDataPoint.deserialize
    dsimp only
    rw [lookupField_filter_known fields "t" (by decide),
      lookupField_filter_known fields "ap" (by decide),
      lookupField_filter_known fields "as" (by decide),
      lookupField_filter_known fields "bp" (by decide),
      lookupField_filter_known fields "bs" (by decide)]
  exact ⟨h, fun _ => by rw [h]⟩

/-- C6: the query string of a one-symbol request without feed is exactly
`symbols=SPY` (no feed parameter); with two symbols and the SIP feed it
percent-encodes the comma-joined list and appends the feed parameter
after the symbols field. -/
theorem query_strings :
    Get.query (LastQuoteReq.new ["SPY"]) = Except.ok (some "symbols=SPY") ∧
    Get.query ((LastQuoteReq.new ["SPY", "QQQ"]).with_feed Feed.SIP)
      = Except.ok (some ("symbols=SPY%2CQQQ" ++ "&feed=sip")) := by
  exact ⟨rfl, rfl⟩

/-- C7: `LastQuoteReq::new` joins the given symbols with commas in the
given order — the library comma-join, which keeps duplicates. -/
theorem symbols_comma_join :
    (∀ syms, (LastQuoteReq.new syms).symbols = String.intercalate "," syms) ∧
    (LastQuoteReq.new ["SPY", "SPY", "QQQ"]).symbols = "SPY,SPY,QQQ" := by
  refine ⟨fun syms => ?_, rfl⟩
  show joinComma syms = _
  exact joinComma_eq_intercalate syms

/-- C8: `parse_err` returns the structured `ApiError` when the body
decodes as one, and otherwise an error carrying exactly the raw body. -/
theorem parse_err_fallback (body : String) :
    (∀ e, (parseJson body).bind ApiError.deserialize = some e →
      Get.parse_err body = Except.ok e) ∧
    ((parseJson body).bind ApiError.deserialize = none →
      Get.parse_err body = Except.error body) := by
  constructor
  · intro e he
    unfold Get.parse_err
    rw [he]
  · intro hn
    unfold Get.parse_err
    rw [hn]

/-- C8's witness: a structured error body decodes; a non-JSON body is
returned verbatim. -/
theorem parse_err_fallback_witness :
    Get.parse_err "\x7b\"code\": 40010001, \"message\": \"invalid symbol\"\x7d"
        = Except.ok ⟨40010001, "invalid symbol"⟩ ∧
    Get.parse_err "mystery" = Except.error "mystery" :=
  ⟨(parse_err_fallback "\x7b\"code\": 40010001, \"message\": \"invalid symbol\"\x7d").1
      ⟨40010001, "invalid symbol"⟩ rfl,
    (parse_err_fallback "mystery").2 rfl⟩

/-- C9: the empty symbol list is not rejected locally: `new []` yields
`symbols = ""`, and `query` succeeds (no `ConversionError`), producing
`symbols=`. -/
theorem empty_symbols_allowed :
    LastQuoteReq.new [] = { symbols := "", feed := none } ∧
    Get.query (LastQuoteReq.new []) = Except.ok (some "symbols=") := by
  exact ⟨rfl, rfl⟩

/-- C10: `with_feed` sets the feed (overwriting any previous value) and
changes nothing else: the result is the record with the same symbols and
`feed = some f`. -/
theorem with_feed_frame (r : LastQuoteReq) (f : Feed) :
    r.with_feed f = { symbols := r.symbols, feed := some f } := rfl

end Apca
